import Mathlib

/-!
Verification of the layered editing/canvas subsystem of the rigid body
designer repository, against its natural-language specification.

The development shallowly embeds the relevant source code:
  - src/grid.py            (SquareGrid coordinate math)
  - src/model.py           (legacy SquareGrid bounding boxes, Model.buddy_finder)
  - src/model_canvas_layer.py (the layer classes and their operations)
  - src/model_canvas.py    (TestCanvas layer-stack controller)
Machine integers of the source are Python 2 arbitrary-precision ints,
embedded as Lean Int.  Python 2 integer division floors, embedded as
Int.fdiv.  The Model class used by the layer subsystem is absent from
the source tree (only its callers are present); its dictionary-backed
operations are modelled from the specification where noted.
-/

namespace RBD

/-- Grid coordinate: integer pair, as in the source. -/
abbrev GC : Type := Int × Int

/-- Builds a grid coordinate from two integers. -/
def mkGC (x y : Int) : GC := (x, y)


/-- A particle value: the two opaque type tags (particle specs tag and body
specs tag) carried by a particle at a coordinate.  Tag identity in the
source is object identity of shared spec objects; embedded as naturals. -/
structure Pcl where
  ptag : Nat
  btag : Nat
deriving DecidableEq, Repr

/-- Sparse model content: maps each grid coordinate to the particle
occupying it, or none when the coordinate is blank. -/
def ModelF : Type := GC → Option Pcl

/-- Modelled from the spec (section 4.2, the Model class is missing from
src/): set(coord, particle) replaces whatever occupies the coordinate. -/
def setParticle (m : ModelF) (gc : GC) (p : Pcl) : ModelF :=
  fun c => if c = gc then some p else m c

/-- Modelled from the spec (section 4.2, the Model class is missing from
src/): remove(coord) deletes the mapping entry, a no-op if absent. -/
def removeParticle (m : ModelF) (gc : GC) : ModelF :=
  fun c => if c = gc then none else m c

/-! ## Grid (src/grid.py, class SquareGrid) -/

/-- SquareGrid.gridcoord_to_pixel (src/grid.py lines 25-34):
x = coord[0] * cell_diameter, y = coord[1] * cell_diameter. -/
def gridcoordToPixel (coord : Int × Int) (cellDiameter : Int) : Int × Int :=
  (coord.1 * cellDiameter, coord.2 * cellDiameter)

/-- SquareGrid.pixel_to_gridcoord (src/grid.py lines 35-38):
coord = int(pixel / cell_diameter) on each axis; Python 2 integer
division floors, hence Int.fdiv. -/
def pixelToGridcoord (pixel : Int × Int) (cellDiameter : Int) : Int × Int :=
  (Int.fdiv pixel.1 cellDiameter, Int.fdiv pixel.2 cellDiameter)

/-- SquareGrid.calc_bbox (src/grid.py lines 40-51): None when no points are
given, otherwise per-axis minima minus padding and maxima plus padding
plus one.  The Python min/max over a nonempty list is a fold over the
tail starting from the head. -/
def calcBbox (gridcoords : List (Int × Int)) (padding : Int) :
    Option (Int × Int × Int × Int) :=
  match gridcoords with
  | [] => none
  | g :: gs =>
    some (gs.foldl (fun a p => min a p.1) g.1 - padding,
          gs.foldl (fun a p => min a p.2) g.2 - padding,
          gs.foldl (fun a p => max a p.1) g.1 + padding + 1,
          gs.foldl (fun a p => max a p.2) g.2 + padding + 1)

/-- Legacy SquareGrid.calc_bounding_box (src/model.py lines 422-431): same
as calcBbox except the maxima are inclusive (padding added, no plus one). -/
def calcBoundingBox (points : List (Int × Int)) (padding : Int) :
    Option (Int × Int × Int × Int) :=
  match points with
  | [] => none
  | g :: gs =>
    some (gs.foldl (fun a p => min a p.1) g.1 - padding,
          gs.foldl (fun a p => min a p.2) g.2 - padding,
          gs.foldl (fun a p => max a p.1) g.1 + padding,
          gs.foldl (fun a p => max a p.2) g.2 + padding)

/-- SquareGrid.gridcoord_to_pixel_bbox (src/grid.py lines 53-61): None in,
None out; otherwise both corners through gridcoord_to_pixel. -/
def gridcoordToPixelBbox (gcBbox : Option (Int × Int × Int × Int))
    (cellDiameter : Int) : Option (Int × Int × Int × Int) :=
  match gcBbox with
  | none => none
  | some (minX, minY, maxX, maxY) =>
    some ((gridcoordToPixel (minX, minY) cellDiameter).1,
          (gridcoordToPixel (minX, minY) cellDiameter).2,
          (gridcoordToPixel (maxX, maxY) cellDiameter).1,
          (gridcoordToPixel (maxX, maxY) cellDiameter).2)

/-- SquareGrid.pixel_to_gridcoord_bbox (src/grid.py lines 63-71): None in,
None out; otherwise the top left corner through pixel_to_gridcoord and the
bottom right corner minus one per axis through pixel_to_gridcoord, plus
one per axis. -/
def pixelToGridcoordBbox (pixelBbox : Option (Int × Int × Int × Int))
    (cellDiameter : Int) : Option (Int × Int × Int × Int) :=
  match pixelBbox with
  | none => none
  | some (minX, minY, maxX, maxY) =>
    some ((pixelToGridcoord (minX, minY) cellDiameter).1,
          (pixelToGridcoord (minX, minY) cellDiameter).2,
          (pixelToGridcoord (maxX - 1, maxY - 1) cellDiameter).1 + 1,
          (pixelToGridcoord (maxX - 1, maxY - 1) cellDiameter).2 + 1)

/-! ## MoveLayer offset snapping (src/model_canvas_layer.py) -/

/-- MoveLayer._offset_rounded (src/model_canvas_layer.py lines 1134-1143):
rounds both the start position and the start position plus the raw drag
offset to cell corners and returns their difference. -/
def offsetRounded (startpos rawOffset : Int × Int) (diameter : Int) :
    Int × Int :=
  let finalpos : Int × Int := (startpos.1 + rawOffset.1, startpos.2 + rawOffset.2)
  let startposRounded := gridcoordToPixel (pixelToGridcoord startpos diameter) diameter
  let finalposRounded := gridcoordToPixel (pixelToGridcoord finalpos diameter) diameter
  (finalposRounded.1 - startposRounded.1, finalposRounded.2 - startposRounded.2)

/-- MoveLayer._move_particle (src/model_canvas_layer.py lines 1145-1152):
the new grid coordinate of a particle displaced by a pixel offset. -/
def moveParticle (gc : Int × Int) (offset : Int × Int) (diameter : Int) :
    Int × Int :=
  let oldPos := gridcoordToPixel gc diameter
  pixelToGridcoord (oldPos.1 + offset.1, oldPos.2 + offset.2) diameter

/-! ## MoveLayer.finish (src/model_canvas_layer.py lines 1049-1072)

The layer holds a stationary shadow particle and a moving shadow particle
for each operated coordinate; each shadow carries an optional particle
value (the model_particle field of the DrawnParticle).  finish() first
walks the stationary shadows, removing each donor coordinate from the
model unless duplicating is on and the shadow holds a particle, and then
walks the moving shadows, writing each particle (or a removal, for blank
shadows) at its displaced coordinate. -/

/-- One stationary-shadow step of MoveLayer.finish: remove the donor
coordinate unless duplicating with a present particle, in which case the
particle is written back. -/
def stationaryStep (dup : Bool) (m : ModelF) (pr : GC × Option Pcl) : ModelF :=
  match dup, pr.2 with
  | false, _ => removeParticle m pr.1
  | true, none => removeParticle m pr.1
  | true, some p => setParticle m pr.1 p

/-- One moving-shadow step of MoveLayer.finish: displace the coordinate by
the rounded offset, then write the carried particle there (or remove, if
the shadow is blank). -/
def movingStep (offset : Int × Int) (diameter : Int) (m : ModelF)
    (pr : GC × Option Pcl) : ModelF :=
  let ngc := moveParticle pr.1 offset diameter
  match pr.2 with
  | none => removeParticle m ngc
  | some p => setParticle m ngc p

/-- MoveLayer.finish effect on the layer model: the stationary pass
followed by the moving pass, in source order. -/
def moveFinish (m : ModelF) (stationary moving : List (GC × Option Pcl))
    (dup : Bool) (offset : Int × Int) (diameter : Int) : ModelF :=
  moving.foldl (movingStep offset diameter) (stationary.foldl (stationaryStep dup) m)

/-! ## EditBasicLayer.merge (src/model_canvas_layer.py lines 810-835)

The parent layer state is its model together with its working point set
and its selection (a SelectLayer keeps selected particles; here their
coordinates).  The child layer contributes its start coordinates, finish
coordinates, model and (when it is a SelectLayer) selection. -/

structure ParentLayer where
  model : ModelF
  points : Finset GC
  selected : Finset GC

structure ChildLayer where
  startCoords : List GC
  finishCoords : List GC
  model : ModelF
  /-- some, holding the selected coordinates, when the child is a
  SelectLayer instance; none otherwise. -/
  selected : Option (List GC)

/-- The model-changed notification payload (utils.event_data_register plus
canvas.event_generate of a Model event): the set of dirty coordinates. -/
structure ModelEvent where
  dirtyGridcoords : Finset GC
deriving DecidableEq

/-- ViewLayer.remove_particle_at (src/model_canvas_layer.py lines 453-455)
with the SelectLayer extension (lines 695-698): removes the particle from
the model, the coordinate from the point set, and the coordinate from the
selection.  The Python set remove raises KeyError when the coordinate is
not in the point set, so callers only reach this with member coordinates. -/
def removeParticleAt (st : ParentLayer) (gc : GC) : ParentLayer :=
  { model := removeParticle st.model gc,
    points := st.points.erase gc,
    selected := st.selected.erase gc }

/-- ViewLayer.set_particle_at (src/model_canvas_layer.py lines 458-466):
a blank particle removes the model entry, an occupied one upserts it; the
coordinate is added to the point set either way. -/
def setParticleAt (st : ParentLayer) (gc : GC) (mp : Option Pcl) : ParentLayer :=
  { model := match mp with
             | none => removeParticle st.model gc
             | some p => setParticle st.model gc p,
    points := insert gc st.points,
    selected := st.selected }

/-- The coordinates the merge marks dirty for the child selection: the
selected coordinates when the child is a SelectLayer, nothing otherwise. -/
def childSelCoords (child : ChildLayer) : Finset GC :=
  match child.selected with
  | none => (∅ : Finset GC)
  | some sel => sel.toFinset

/-- EditBasicLayer.merge (src/model_canvas_layer.py lines 810-835): remove
the child start coordinates, absorb the particle at every child finish
coordinate from the child model, take over the child selection when the
child is a SelectLayer, and finally emit a single model-changed event
naming the union of start, finish and selected coordinates.  The returned
list holds every event the call emits, in order, after all absorption. -/
def mergeLayer (st : ParentLayer) (child : ChildLayer) :
    ParentLayer × List ModelEvent :=
  let st1 := child.startCoords.foldl removeParticleAt st
  let st2 := { st1 with points := st1.points ∪ child.finishCoords.toFinset }
  let st3 := child.finishCoords.foldl
    (fun s gc => setParticleAt s gc (child.model gc)) st2
  let st4 := match child.selected with
             | none => st3
             | some sel => { st3 with selected := sel.toFinset }
  let dirty := child.startCoords.toFinset ∪ child.finishCoords.toFinset
                 ∪ childSelCoords child
  (st4, [⟨dirty⟩])

/-! ## Editing-layer operations and cancel (claim C1)

A child editing layer (MoveLayer, RotateLayer, PasteLayer, or a child
EditBasicLayer) is constructed over a frozen snapshot model
(get_operation_particles at src/model_canvas_layer.py lines 941-949
builds a fresh Model from deep copies; PasteLayer deep-copies the
clipboard), never over the underlying authoritative Model.  The state
below keeps both: parent is the underlying Model captured before
start(); own is the layer snapshot that the drag/paint/selection
handlers mutate. -/

structure EditLayerState where
  /-- The underlying authoritative Model of the design (the parent
  layer model); the state S of the cancel-restores-state claim. -/
  parent : ModelF
  /-- The layer snapshot model (self.model inside the child layer). -/
  own : ModelF
  points : List GC
  selected : List GC
  startpos : Int × Int
  offset : Int × Int
  duplicating : Bool
  canceled : Bool

/-- A brush value: none is the erasing brush; otherwise the optional
particle tag and optional body tag (src/brush.py). -/
def BrushV : Type := Option (Option Nat × Option Nat)

/-- EditBasicLayer.apply_brush on one drawn particle
(src/model_canvas_layer.py lines 838-854): the erasing brush removes the
particle; on an occupied coordinate the brush overwrites exactly the tag
fields it carries; on a blank coordinate only a brush carrying both tags
creates a particle. -/
def applyBrushOne (brush : BrushV) (m : ModelF) (gc : GC) : ModelF :=
  match brush with
  | none => removeParticle m gc
  | some (pspec, bspec) =>
    match m gc with
    | some q => setParticle m gc ⟨pspec.getD q.ptag, bspec.getD q.btag⟩
    | none =>
      match pspec, bspec with
      | some pt, some bt => setParticle m gc ⟨pt, bt⟩
      | _, _ => m

/-- The editing operations a running child layer performs before it is
finished or canceled; each mirrors one handler of the source. -/
inductive EditOp where
  /-- EditBasicLayer.handle_paint (lines 878-889): reset the selection to
  the clicked coordinate when it is not selected, then apply the brush to
  every selected coordinate of the layer snapshot model. -/
  | paint (brush : BrushV) (target : GC)
  /-- MoveLayer.handle_drag (lines 1105-1113): record the raw pixel offset
  from the start position and the shift-key duplicating flag. -/
  | drag (pos : Int × Int) (shiftHeld : Bool)
  /-- MoveLayer._set_duplicating via handle_key (lines 1122-1132). -/
  | setDuplicating (b : Bool)
  /-- SelectLayer.new_selection (lines 647-651): replace or extend the
  selection. -/
  | newSelection (coords : List GC) (append : Bool)
  /-- RotateLayer.start restaging (lines 1181-1200): remove every operated
  point of the snapshot, then restage each saved particle at its rotated
  coordinate according to the grid rotation mapping. -/
  | rotateStart (mapping : List (GC × GC))

/-- One editing operation, acting on the child layer state.  No branch
reads or writes the parent field: every handler of the source mutates
only the layer snapshot model, the selection, or the drag bookkeeping. -/
def stepOp (st : EditLayerState) (op : EditOp) : EditLayerState :=
  match op with
  | .paint brush target =>
    let sel := if target ∈ st.selected then st.selected else [target]
    { st with selected := sel, own := sel.foldl (applyBrushOne brush) st.own }
  | .drag pos shiftHeld =>
    { st with offset := (pos.1 - st.startpos.1, pos.2 - st.startpos.2),
              duplicating := shiftHeld }
  | .setDuplicating b => { st with duplicating := b }
  | .newSelection coords append =>
    { st with selected := if append then st.selected ++ coords else coords }
  | .rotateStart mapping =>
    let oldOwn := st.own
    let own1 := st.points.foldl removeParticle st.own
    let own2 := mapping.foldl
      (fun m pr => match oldOwn pr.1 with
                   | none => removeParticle m pr.2
                   | some p => setParticle m pr.2 p) own1
    { st with own := own2,
              points := mapping.map Prod.snd,
              selected := (mapping.filter (fun pr => pr.1 ∈ st.selected)).map Prod.snd }

/-- Run a sequence of editing operations. -/
def runOps (ops : List EditOp) (st : EditLayerState) : EditLayerState :=
  ops.foldl stepOp st

/-- ModelCanvasLayer.cancel and ViewLayer.cancel (src/model_canvas_layer.py
lines 196-199 and 377-379): stop the event handlers, drop the running
canvas tag, and set the canceled flag; no model is touched. -/
def cancelLayer (st : EditLayerState) : EditLayerState :=
  { st with canceled := true }

/-! ## Layer lifecycle flags and the stack controller (claim C2) -/

/-- The lifecycle flags of ModelCanvasLayer (src/model_canvas_layer.py
lines 131-171). -/
structure LayerFlags where
  started : Bool
  paused : Bool
  finished : Bool
  canceled : Bool
  cleaned : Bool
deriving DecidableEq, Repr

/-- ModelCanvasLayer.alive: started and neither finished nor canceled. -/
def aliveF (l : LayerFlags) : Bool :=
  l.started && !l.finished && !l.canceled

/-- ModelCanvasLayer.running: alive and not paused (lines 166-171). -/
def runningF (l : LayerFlags) : Bool :=
  aliveF l && !l.paused

/-- ModelCanvasLayer.start flag effect (line 177). -/
def startFlags (l : LayerFlags) : LayerFlags := { l with started := true }

/-- ModelCanvasLayer.pause flag effect (line 181). -/
def pauseFlags (l : LayerFlags) : LayerFlags := { l with paused := true }

/-- ModelCanvasLayer.resume flag effect (line 184). -/
def resumeFlags (l : LayerFlags) : LayerFlags := { l with paused := false }

/-- ModelCanvasLayer.finish flag effect (line 195). -/
def finishFlags (l : LayerFlags) : LayerFlags := { l with finished := true }

/-- ModelCanvasLayer.cancel flag effect (line 199). -/
def cancelFlags (l : LayerFlags) : LayerFlags := { l with canceled := true }

/-- ModelCanvasLayer.clean flag effect (line 202). -/
def cleanFlags (l : LayerFlags) : LayerFlags := { l with cleaned := true }

/-- A freshly constructed layer: no flag set. -/
def freshLayer : LayerFlags := ⟨false, false, false, false, false⟩

/-- TestCanvas.start_layer (src/model_canvas.py lines 881-884): pause the
current top, push the new layer, start it.  The stack is represented head
first (the list head is the top layer); the controller never calls this
on an empty stack (the constructor pushes a background layer). -/
def startLayer (stk : List LayerFlags) (l : LayerFlags) : List LayerFlags :=
  match stk with
  | [] => [startFlags l]
  | t :: rest => startFlags l :: pauseFlags t :: rest

/-- TestCanvas.merge_top_layer (src/model_canvas.py lines 885-890): pop
the top layer, finish it, merge it into the new top (no flag change),
clean it, and resume the new top.  Returns the popped layer flags
together with the new stack; only meaningful for stacks of two or more
layers (top_layer of an empty stack raises). -/
def mergeTopLayer (stk : List LayerFlags) : LayerFlags × List LayerFlags :=
  match stk with
  | [] => (freshLayer, [])
  | [c] => (cleanFlags (finishFlags c), [])
  | c :: t :: rest => (cleanFlags (finishFlags c), resumeFlags t :: rest)

/-- TestCanvas.cancel_top_layer (src/model_canvas.py lines 891-895): pop
the top layer, cancel it, clean it, and resume the new top. -/
def cancelTopLayer (stk : List LayerFlags) : LayerFlags × List LayerFlags :=
  match stk with
  | [] => (freshLayer, [])
  | [c] => (cleanFlags (cancelFlags c), [])
  | c :: t :: rest => (cleanFlags (cancelFlags c), resumeFlags t :: rest)

/-- The number of running layers in a stack. -/
def runningCount (stk : List LayerFlags) : Nat :=
  stk.countP (fun l => runningF l)

/-- The stack invariant maintained by the controller: every layer strictly
below the top is not running (it is paused, or dead). -/
def belowTopNotRunning (stk : List LayerFlags) : Prop :=
  ∀ l ∈ stk.tail, runningF l = false

instance (stk : List LayerFlags) : Decidable (belowTopNotRunning stk) := by
  unfold belowTopNotRunning
  infer_instance

/-! ## Body selection (claim C9) -/

/-- A particle entry of the legacy Model of src/model.py: its grid
coordinate, its two spec tags, and the present flag. -/
structure PclR where
  gridCoord : GC
  particleSpecs : Nat
  bodySpecs : Nat
deriving DecidableEq, Repr

/-- Model.buddy_finder (src/model.py lines 310-317): walks every particle
of the model and collects those whose body specs equal the body specs of
the given particle.  Spec-tag equality in the source is identity of the
shared spec objects, embedded as equality of tag values. -/
def buddyFinder (particles : List PclR) (particle : PclR) : List PclR :=
  particles.filter (fun ite => ite.bodySpecs == particle.bodySpecs)

/-- Modelled from the spec (section 4.4; SelectLayer calls
_calc_connected_body_particles, which is absent from src/): body
selection collects all particles of the model sharing the clicked
particle body-type tag, a flood by attribute over the whole model with no
spatial contiguity restriction. -/
def calcConnectedBodyParticles (particles : List PclR) (particle : PclR) :
    List PclR :=
  particles.filter (fun ite => ite.bodySpecs == particle.bodySpecs)

/-- SelectLayer.new_selection on coordinate lists (src/model_canvas_layer.py
lines 647-651). -/
def newSelectionCoords (selected : List GC) (coords : List GC)
    (append : Bool) : List GC :=
  if append then selected ++ coords else coords

/-- SelectLayer.body_selection (src/model_canvas_layer.py lines 659-661):
replace (or extend, when append is set) the selection with the connected
body particles of the clicked particle; the selection is tracked here by
coordinates. -/
def bodySelection (particles : List PclR) (selected : List GC)
    (particle : PclR) (append : Bool) : List GC :=
  newSelectionCoords selected
    ((calcConnectedBodyParticles particles particle).map (fun p => p.gridCoord))
    append

/-! ## Attained extrema, for the bounding-box characterizations -/

/-- v is the minimum of the list: a member, and a lower bound. -/
def attainedMin (v : Int) (l : List Int) : Prop :=
  v ∈ l ∧ ∀ x ∈ l, v ≤ x

/-- v is the maximum of the list: a member, and an upper bound. -/
def attainedMax (v : Int) (l : List Int) : Prop :=
  v ∈ l ∧ ∀ x ∈ l, x ≤ v

/-! ## Concrete instances used by counterexamples and witnesses -/

/-- A two-particle model: distinct particles at (0,0) and (1,0). -/
def mExA : ModelF :=
  fun c => if c = mkGC 0 0 then some ⟨1, 1⟩
           else if c = mkGC 1 0 then some ⟨2, 2⟩ else none

/-- The MoveLayer shadow lists for mExA after an update pass: each shadow
carries the model particle at its coordinate. -/
def shadowsExA : List (GC × Option Pcl) :=
  [(mkGC 0 0, some ⟨1, 1⟩), (mkGC 1 0, some ⟨2, 2⟩)]

/-- A one-particle model with a particle at (0,0). -/
def mExW : ModelF :=
  fun c => if c = mkGC 0 0 then some ⟨1, 1⟩ else none

/-- A concrete parent layer over mExA. -/
def stExC3 : ParentLayer :=
  { model := mExA,
    points := {mkGC 0 0, mkGC 1 0},
    selected := {mkGC 0 0} }

/-- A concrete child layer: it operated on (0,0) and (1,0) and finishes
with particles at (1,0) and (2,0) (a one-cell move to the right). -/
def childExC3 : ChildLayer :=
  { startCoords := [mkGC 0 0, mkGC 1 0],
    finishCoords := [mkGC 1 0, mkGC 2 0],
    model := fun c => if c = mkGC 1 0 then some ⟨1, 1⟩
                      else if c = mkGC 2 0 then some ⟨2, 2⟩ else none,
    selected := some [mkGC 1 0, mkGC 2 0] }

/-- A running layer (started, not paused, not finished, not canceled). -/
def runningLayerEx : LayerFlags := ⟨true, false, false, false, false⟩

/-- A paused layer. -/
def pausedLayerEx : LayerFlags := ⟨true, true, false, false, false⟩

/-! ## Arithmetic helpers -/

theorem fdiv_mul_cancel_of_pos (a : Int) {d : Int} (hd : 0 < d) :
    Int.fdiv (a * d) d = a :=
  Int.mul_fdiv_cancel a (by omega)

theorem fdiv_mul_sub_one (a : Int) {d : Int} (hd : 0 < d) :
    Int.fdiv (a * d - 1) d = a - 1 := by
  rw [Int.fdiv_eq_ediv _ (by omega : (0 : Int) ≤ d)]
  have h : a * d - 1 = (d - 1) + (a - 1) * d := by ring
  rw [h, Int.add_mul_ediv_right _ _ (by omega : d ≠ 0),
      Int.ediv_eq_zero_of_lt (by omega) (by omega)]
  omega

/-! ## Fold helpers for minima and maxima -/

theorem foldl_min_le_init (l : List Int) (i : Int) : l.foldl min i ≤ i := by
  induction l generalizing i with
  | nil => exact le_refl i
  | cons x xs ih =>
    simpa using le_trans (ih (min i x)) (min_le_left i x)

theorem foldl_min_le_mem (l : List Int) (i : Int) : ∀ x ∈ l, l.foldl min i ≤ x := by
  induction l generalizing i with
  | nil => intro x hx; cases hx
  | cons y ys ih =>
    intro x hx
    simp only [List.foldl_cons]
    rcases List.mem_cons.mp hx with h | h
    · subst h
      exact le_trans (foldl_min_le_init ys (min i x)) (min_le_right i x)
    · exact ih (min i y) x h

theorem foldl_min_attained (l : List Int) (i : Int) :
    l.foldl min i = i ∨ l.foldl min i ∈ l := by
  induction l generalizing i with
  | nil => left; rfl
  | cons y ys ih =>
    simp only [List.foldl_cons]
    rcases ih (min i y) with h | h
    · rcases le_total i y with hle | hle
      · left; rw [h, min_eq_left hle]
      · right; rw [h, min_eq_right hle]; exact List.mem_cons_self y ys
    · right; exact List.mem_cons_of_mem y h

theorem foldl_max_ge_init (l : List Int) (i : Int) : i ≤ l.foldl max i := by
  induction l generalizing i with
  | nil => exact le_refl i
  | cons x xs ih =>
    simpa using le_trans (le_max_left i x) (ih (max i x))

theorem foldl_max_ge_mem (l : List Int) (i : Int) : ∀ x ∈ l, x ≤ l.foldl max i := by
  induction l generalizing i with
  | nil => intro x hx; cases hx
  | cons y ys ih =>
    intro x hx
    simp only [List.foldl_cons]
    rcases List.mem_cons.mp hx with h | h
    · subst h
      exact le_trans (le_max_right i x) (foldl_max_ge_init ys (max i x))
    · exact ih (max i y) x h

theorem foldl_max_attained (l : List Int) (i : Int) :
    l.foldl max i = i ∨ l.foldl max i ∈ l := by
  induction l generalizing i with
  | nil => left; rfl
  | cons y ys ih =>
    simp only [List.foldl_cons]
    rcases ih (max i y) with h | h
    · rcases le_total i y with hle | hle
      · right; rw [h, max_eq_right hle]; exact List.mem_cons_self y ys
      · left; rw [h, max_eq_left hle]
    · right; exact List.mem_cons_of_mem y h

theorem attainedMin_foldl (i : Int) (l : List Int) :
    attainedMin (l.foldl min i) (i :: l) := by
  constructor
  · rcases foldl_min_attained l i with h | h
    · rw [h]; exact List.mem_cons_self i l
    · exact List.mem_cons_of_mem i h
  · intro x hx
    rcases List.mem_cons.mp hx with h | h
    · subst h; exact foldl_min_le_init l x
    · exact foldl_min_le_mem l i x h

theorem attainedMax_foldl (i : Int) (l : List Int) :
    attainedMax (l.foldl max i) (i :: l) := by
  constructor
  · rcases foldl_max_attained l i with h | h
    · rw [h]; exact List.mem_cons_self i l
    · exact List.mem_cons_of_mem i h
  · intro x hx
    rcases List.mem_cons.mp hx with h | h
    · subst h; exact foldl_max_ge_init l x
    · exact foldl_max_ge_mem l i x h

/-- Rephrasing of the pairwise folds of calcBbox over the projected lists. -/
theorem foldl_min_fst (gs : List (Int × Int)) (i : Int) :
    gs.foldl (fun a p => min a p.1) i = (gs.map Prod.fst).foldl min i := by
  rw [List.foldl_map]

theorem foldl_min_snd (gs : List (Int × Int)) (i : Int) :
    gs.foldl (fun a p => min a p.2) i = (gs.map Prod.snd).foldl min i := by
  rw [List.foldl_map]

theorem foldl_max_fst (gs : List (Int × Int)) (i : Int) :
    gs.foldl (fun a p => max a p.1) i = (gs.map Prod.fst).foldl max i := by
  rw [List.foldl_map]

theorem foldl_max_snd (gs : List (Int × Int)) (i : Int) :
    gs.foldl (fun a p => max a p.2) i = (gs.map Prod.snd).foldl max i := by
  rw [List.foldl_map]

/-! ## Claim C5 -/

/-- Claim C5: for every integer grid coordinate c and every diameter
d > 0, converting c to a pixel position and back yields c:
pixel_to_gridcoord(gridcoord_to_pixel(c, d), d) = c. -/
theorem claim_C5_grid_round_trip (c : Int × Int) (d : Int) (hd : 0 < d) :
    pixelToGridcoord (gridcoordToPixel c d) d = c := by
  unfold pixelToGridcoord gridcoordToPixel
  simp [fdiv_mul_cancel_of_pos _ hd]

/-- Witness for claim C5 at c = (3, -2), d = 20. -/
theorem claim_C5_grid_round_trip_witness :
    (0 : Int) < 20 ∧ pixelToGridcoord (gridcoordToPixel (3, -2) 20) 20 = ((3 : Int), (-2 : Int)) :=
  ⟨by decide, claim_C5_grid_round_trip (3, -2) 20 (by decide)⟩

/-! ## Claim C10 -/

/-- Claim C10: for every grid-coordinate bounding box with min < max on
both axes and every integer cell diameter d >= 1, converting to a pixel
bounding box and back is the identity, and both conversions map None to
None instead of raising. -/
theorem claim_C10_bbox_round_trip (minX minY maxX maxY d : Int)
    (h1 : minX < maxX) (h2 : minY < maxY) (hd : 1 ≤ d) :
    pixelToGridcoordBbox (gridcoordToPixelBbox (some (minX, minY, maxX, maxY)) d) d
      = some (minX, minY, maxX, maxY)
  ∧ gridcoordToPixelBbox none d = none
  ∧ pixelToGridcoordBbox none d = none := by
  have hd0 : (0 : Int) < d := by omega
  refine ⟨?_, rfl, rfl⟩
  unfold gridcoordToPixelBbox pixelToGridcoordBbox gridcoordToPixel pixelToGridcoord
  simp [fdiv_mul_cancel_of_pos _ hd0, fdiv_mul_sub_one _ hd0]

/-- Witness for claim C10 at box (0, 1, 2, 3), d = 20. -/
theorem claim_C10_bbox_round_trip_witness :
    ((0 : Int) < 2 ∧ (1 : Int) < 3 ∧ (1 : Int) ≤ 20)
  ∧ pixelToGridcoordBbox (gridcoordToPixelBbox (some (0, 1, 2, 3)) 20) 20
      = some ((0 : Int), (1 : Int), (2 : Int), (3 : Int)) :=
  ⟨⟨by decide, by decide, by decide⟩,
   (claim_C10_bbox_round_trip 0 1 2 3 20 (by decide) (by decide) (by decide)).1⟩

/-! ## Claim C6 -/

/-- Claim C6 counterexample: the claim states that the cited bounding-box
operations follow the exclusive-by-one convention (max + padding + 1),
but the legacy SquareGrid.calc_bounding_box of src/model.py returns
inclusive maxima: on the single point (0,0) with padding 0 it returns
(0, 0, 0, 0), not the claimed (0, 0, 1, 1). -/
theorem claim_C6_bbox_counterexample :
    calcBoundingBox [((0 : Int), (0 : Int))] 0 = some (0, 0, 0, 0)
  ∧ calcBoundingBox [((0 : Int), (0 : Int))] 0 ≠ some (0 - 0, 0 - 0, 0 + 0 + 1, 0 + 0 + 1) := by
  constructor
  · rfl
  · decide

/-- Claim C6, amended: both bounding-box operations return None exactly on
the empty collection (never raising); calc_bbox of src/grid.py returns the
per-axis minima minus padding and the maxima plus padding plus one
(exclusive-by-one), while the legacy calc_bounding_box of src/model.py
returns inclusive maxima (plus padding, without the plus one). -/
theorem claim_C6_bbox_amended :
    (∀ (cs : List (Int × Int)) (pad : Int),
       (calcBbox cs pad = none ↔ cs = []) ∧ (calcBoundingBox cs pad = none ↔ cs = []))
  ∧ (∀ (g : Int × Int) (gs : List (Int × Int)) (pad a b c e : Int),
       calcBbox (g :: gs) pad = some (a, b, c, e) →
         attainedMin (a + pad) ((g :: gs).map Prod.fst)
       ∧ attainedMin (b + pad) ((g :: gs).map Prod.snd)
       ∧ attainedMax (c - pad - 1) ((g :: gs).map Prod.fst)
       ∧ attainedMax (e - pad - 1) ((g :: gs).map Prod.snd))
  ∧ (∀ (g : Int × Int) (gs : List (Int × Int)) (pad a b c e : Int),
       calcBoundingBox (g :: gs) pad = some (a, b, c, e) →
         attainedMin (a + pad) ((g :: gs).map Prod.fst)
       ∧ attainedMin (b + pad) ((g :: gs).map Prod.snd)
       ∧ attainedMax (c - pad) ((g :: gs).map Prod.fst)
       ∧ attainedMax (e - pad) ((g :: gs).map Prod.snd)) := by
  refine ⟨?_, ?_, ?_⟩
  · intro cs pad
    constructor <;> (cases cs <;> simp [calcBbox, calcBoundingBox])
  · intro g gs pad a b c e h
    simp only [calcBbox, Option.some.injEq, Prod.mk.injEq] at h
    obtain ⟨h1, h2, h3, h4⟩ := h
    have ha : a + pad = (gs.map Prod.fst).foldl min g.1 := by
      rw [← foldl_min_fst]; omega
    have hb : b + pad = (gs.map Prod.snd).foldl min g.2 := by
      rw [← foldl_min_snd]; omega
    have hc : c - pad - 1 = (gs.map Prod.fst).foldl max g.1 := by
      rw [← foldl_max_fst]; omega
    have he : e - pad - 1 = (gs.map Prod.snd).foldl max g.2 := by
      rw [← foldl_max_snd]; omega
    rw [List.map_cons, List.map_cons, ha, hb, hc, he]
    exact ⟨attainedMin_foldl g.1 (gs.map Prod.fst), attainedMin_foldl g.2 (gs.map Prod.snd),
           attainedMax_foldl g.1 (gs.map Prod.fst), attainedMax_foldl g.2 (gs.map Prod.snd)⟩
  · intro g gs pad a b c e h
    simp only [calcBoundingBox, Option.some.injEq, Prod.mk.injEq] at h
    obtain ⟨h1, h2, h3, h4⟩ := h
    have ha : a + pad = (gs.map Prod.fst).foldl min g.1 := by
      rw [← foldl_min_fst]; omega
    have hb : b + pad = (gs.map Prod.snd).foldl min g.2 := by
      rw [← foldl_min_snd]; omega
    have hc : c - pad = (gs.map Prod.fst).foldl max g.1 := by
      rw [← foldl_max_fst]; omega
    have he : e - pad = (gs.map Prod.snd).foldl max g.2 := by
      rw [← foldl_max_snd]; omega
    rw [List.map_cons, List.map_cons, ha, hb, hc, he]
    exact ⟨attainedMin_foldl g.1 (gs.map Prod.fst), attainedMin_foldl g.2 (gs.map Prod.snd),
           attainedMax_foldl g.1 (gs.map Prod.fst), attainedMax_foldl g.2 (gs.map Prod.snd)⟩

/-- Witness for the amended claim C6: the box of (0,0) and (2,1) with
padding 0 is (0, 0, 3, 2) under calc_bbox, and 3 - 0 - 1 = 2 is the
attained maximum of the first coordinates. -/
theorem claim_C6_bbox_amended_witness :
    calcBbox [((0 : Int), (0 : Int)), (2, 1)] 0 = some (0, 0, 3, 2)
  ∧ attainedMax ((3 : Int) - 0 - 1) ([((0 : Int), (0 : Int)), (2, 1)].map Prod.fst) :=
  ⟨by decide,
   (claim_C6_bbox_amended.2.1 (0, 0) [(2, 1)] 0 0 0 3 2 (by decide)).2.2.1⟩

/-! ## Grid-cell offsets -/

/-- Displacing a coordinate by a whole-cell pixel offset shifts its grid
coordinate by exactly the cell counts. -/
theorem moveParticle_cell_offset (gc : Int × Int) (k l d : Int) (hd : 0 < d) :
    moveParticle gc (k * d, l * d) d = (gc.1 + k, gc.2 + l) := by
  unfold moveParticle gridcoordToPixel pixelToGridcoord
  have h1 : gc.1 * d + k * d = (gc.1 + k) * d := by ring
  have h2 : gc.2 * d + l * d = (gc.2 + l) * d := by ring
  simp only [h1, h2, fdiv_mul_cancel_of_pos _ hd]

/-- The rounded offset is the cell-count difference times the diameter on
each axis. -/
theorem offsetRounded_cells (s r : Int × Int) (d : Int) :
    offsetRounded s r d
      = (((pixelToGridcoord (s.1 + r.1, s.2 + r.2) d).1 - (pixelToGridcoord s d).1) * d,
         ((pixelToGridcoord (s.1 + r.1, s.2 + r.2) d).2 - (pixelToGridcoord s d).2) * d) := by
  simp only [offsetRounded, gridcoordToPixel, Prod.mk.injEq]
  constructor <;> ring

/-! ## Claim C7 -/

/-- Claim C7: during a move the applied offset is the raw pixel offset
snapped to whole grid cells, grid_snap(start + raw) - grid_snap(start);
a drag that does not leave the starting cell moves no particle, and a
drag crossing exactly one cell boundary moves every particle by exactly
one grid unit along the crossed axis. -/
theorem claim_C7_move_snap (d : Int) (hd : 0 < d) (s r gc : Int × Int) :
    offsetRounded s r d
      = ((gridcoordToPixel (pixelToGridcoord (s.1 + r.1, s.2 + r.2) d) d).1
           - (gridcoordToPixel (pixelToGridcoord s d) d).1,
         (gridcoordToPixel (pixelToGridcoord (s.1 + r.1, s.2 + r.2) d) d).2
           - (gridcoordToPixel (pixelToGridcoord s d) d).2)
  ∧ moveParticle gc (offsetRounded s r d) d
      = (gc.1 + ((pixelToGridcoord (s.1 + r.1, s.2 + r.2) d).1 - (pixelToGridcoord s d).1),
         gc.2 + ((pixelToGridcoord (s.1 + r.1, s.2 + r.2) d).2 - (pixelToGridcoord s d).2))
  ∧ (pixelToGridcoord (s.1 + r.1, s.2 + r.2) d = pixelToGridcoord s d →
       moveParticle gc (offsetRounded s r d) d = gc)
  ∧ (∀ e : Int, e = 1 ∨ e = -1 →
       (pixelToGridcoord (s.1 + r.1, s.2 + r.2) d
          = ((pixelToGridcoord s d).1 + e, (pixelToGridcoord s d).2) →
          moveParticle gc (offsetRounded s r d) d = (gc.1 + e, gc.2))
     ∧ (pixelToGridcoord (s.1 + r.1, s.2 + r.2) d
          = ((pixelToGridcoord s d).1, (pixelToGridcoord s d).2 + e) →
          moveParticle gc (offsetRounded s r d) d = (gc.1, gc.2 + e))) := by
  have hmain : moveParticle gc (offsetRounded s r d) d
      = (gc.1 + ((pixelToGridcoord (s.1 + r.1, s.2 + r.2) d).1 - (pixelToGridcoord s d).1),
         gc.2 + ((pixelToGridcoord (s.1 + r.1, s.2 + r.2) d).2 - (pixelToGridcoord s d).2)) := by
    rw [offsetRounded_cells, moveParticle_cell_offset gc _ _ d hd]
  refine ⟨?_, hmain, ?_, ?_⟩
  · unfold offsetRounded gridcoordToPixel
    rfl
  · intro hsame
    rw [hmain, hsame]
    simp
  · intro e _
    constructor <;> intro hcross <;> rw [hmain, hcross] <;> simp

/-- Witness for claim C7: diameter 20, drag from (0,0) by raw offset
(25, 0) crosses one cell boundary in x and moves the particle at (1, 0)
to (2, 0). -/
theorem claim_C7_move_snap_witness :
    ((0 : Int) < 20
      ∧ ((1 : Int) = 1 ∨ (1 : Int) = -1)
      ∧ pixelToGridcoord ((0 : Int) + 25, (0 : Int) + 0) 20
          = ((pixelToGridcoord (0, 0) 20).1 + 1, (pixelToGridcoord (0, 0) 20).2))
  ∧ moveParticle (1, 0) (offsetRounded (0, 0) (25, 0) 20) 20 = (((1 : Int), (0 : Int)).1 + 1, ((1 : Int), (0 : Int)).2) :=
  ⟨⟨by decide, Or.inl rfl, by decide⟩,
   ((claim_C7_move_snap 20 (by decide) (0, 0) (25, 0) (1, 0)).2.2.2 1 (Or.inl rfl)).1 (by decide)⟩

/-! ## Write-fold helpers

A helper view of loops that write one model entry per element: step
writes the value val g at the target coordinate tgt g. -/

theorem foldl_write_notin (step : ModelF → GC → ModelF) (tgt : GC → GC)
    (val : GC → Option Pcl)
    (hstep : ∀ b g c, step b g c = if c = tgt g then val g else b c) :
    ∀ (L : List GC) (b : ModelF) (c : GC),
      (∀ g ∈ L, tgt g ≠ c) → (L.foldl step b) c = b c := by
  intro L
  induction L with
  | nil => intro b c _; rfl
  | cons x xs ih =>
    intro b c hne
    simp only [List.foldl_cons]
    rw [ih (step b x) c (fun g hg => hne g (List.mem_cons_of_mem x hg)), hstep]
    rw [if_neg (fun hcx => hne x (List.mem_cons_self x xs) hcx.symm)]

theorem foldl_write_mem (step : ModelF → GC → ModelF) (tgt : GC → GC)
    (val : GC → Option Pcl)
    (hstep : ∀ b g c, step b g c = if c = tgt g then val g else b c)
    (hinj : ∀ g1 g2, tgt g1 = tgt g2 → g1 = g2) :
    ∀ (L : List GC) (b : ModelF) (g : GC), g ∈ L → (L.foldl step b) (tgt g) = val g := by
  intro L
  induction L with
  | nil => intro b g h; cases h
  | cons x xs ih =>
    intro b g hg
    simp only [List.foldl_cons]
    by_cases hx : g ∈ xs
    · exact ih (step b x) g hx
    · have hgx : g = x := by
        rcases List.mem_cons.mp hg with h | h
        · exact h
        · exact absurd h hx
      subst hgx
      have hnot : ∀ g2 ∈ xs, tgt g2 ≠ tgt g := by
        intro g2 hg2 heq
        exact hx ((hinj g2 g heq) ▸ hg2)
      rw [foldl_write_notin step tgt val hstep xs (step b g) (tgt g) hnot, hstep]
      rw [if_pos rfl]

/-- The stationary pass of MoveLayer.finish, on shadows synchronized with
the layer model, writes (if duplicating, the original particle, else a
removal) at each donor coordinate. -/
theorem stationaryStep_write (dup : Bool) (m : ModelF) :
    ∀ (b : ModelF) (g c : GC),
      stationaryStep dup b (g, m g) c
        = if c = g then (if dup = true then m g else none) else b c := by
  intro b g c
  cases dup <;> cases hm : m g <;>
    simp [stationaryStep, removeParticle, setParticle, hm]

/-- The moving pass of MoveLayer.finish, on shadows synchronized with the
layer model and a whole-cell offset, writes the original particle of each
donor coordinate at its displaced coordinate. -/
theorem movingStep_write (m : ModelF) (k l d : Int) (hd : 0 < d) :
    ∀ (b : ModelF) (g c : GC),
      movingStep (k * d, l * d) d b (g, m g) c
        = if c = (g.1 + k, g.2 + l) then m g else b c := by
  intro b g c
  cases hm : m g <;>
    simp [movingStep, moveParticle_cell_offset g k l d hd, removeParticle, setParticle, hm]

/-! ## Claim C8 -/

/-- Claim C8 counterexample: with duplicating enabled and a one-cell
offset to the right, the moved particle from (0,0) lands on the donor
coordinate (1,0) after the donor pass, so the donor coordinate (1,0) no
longer holds its original particle after finish: the moving pass runs
last and overwrites it. -/
theorem claim_C8_move_finish_counterexample :
    mExA (mkGC 1 0) = some ⟨2, 2⟩
  ∧ moveFinish mExA shadowsExA shadowsExA true (20, 0) 20 (mkGC 1 0) = some ⟨1, 1⟩
  ∧ ¬ moveFinish mExA shadowsExA shadowsExA true (20, 0) 20 (mkGC 1 0) = mExA (mkGC 1 0) := by
  refine ⟨rfl, ?_, ?_⟩ <;> decide

/-- Claim C8, amended: the rounded offset is always a whole number of
cells per axis; after finish with shadows synchronized to the layer
model, every moved particle occupies its displaced coordinate (so a
moved particle overwrites any donor coordinate it lands on, the moving
pass running after the donor pass), and every donor coordinate that is
not the target of a moved particle keeps its original particle when
duplicating and is cleared when not duplicating. -/
theorem claim_C8_move_finish_amended (m : ModelF) (gcs : List GC) (dup : Bool)
    (k l d : Int) (hd : 0 < d) :
    (∀ s r : Int × Int, ∃ k2 l2 : Int, offsetRounded s r d = (k2 * d, l2 * d))
  ∧ (∀ gc ∈ gcs,
       moveFinish m (gcs.map fun g => (g, m g)) (gcs.map fun g => (g, m g))
         dup (k * d, l * d) d (gc.1 + k, gc.2 + l) = m gc)
  ∧ (∀ c ∈ gcs, (∀ gc ∈ gcs, (gc.1 + k, gc.2 + l) ≠ c) →
       moveFinish m (gcs.map fun g => (g, m g)) (gcs.map fun g => (g, m g))
         dup (k * d, l * d) d c = if dup = true then m c else none) := by
  have hinj : ∀ g1 g2 : GC, ((g1.1 + k, g1.2 + l) : GC) = (g2.1 + k, g2.2 + l) → g1 = g2 := by
    intro g1 g2 h
    simp only [Prod.mk.injEq] at h
    have : g1.1 = g2.1 ∧ g1.2 = g2.2 := by omega
    exact Prod.ext this.1 this.2
  have hfold1 : ∀ (b : ModelF),
      (gcs.map fun g => (g, m g)).foldl (stationaryStep dup) b
        = gcs.foldl (fun b2 g => stationaryStep dup b2 (g, m g)) b := by
    intro b
    rw [List.foldl_map]
  have hfold2 : ∀ (b : ModelF),
      (gcs.map fun g => (g, m g)).foldl (movingStep (k * d, l * d) d) b
        = gcs.foldl (fun b2 g => movingStep (k * d, l * d) d b2 (g, m g)) b := by
    intro b
    rw [List.foldl_map]
  refine ⟨?_, ?_, ?_⟩
  · intro s r
    exact ⟨_, _, offsetRounded_cells s r d⟩
  · intro gc hgc
    unfold moveFinish
    rw [hfold2]
    exact foldl_write_mem _ (fun g => (g.1 + k, g.2 + l)) (fun g => m g)
      (movingStep_write m k l d hd) hinj gcs _ gc hgc
  · intro c hc hnt
    unfold moveFinish
    rw [hfold2]
    rw [foldl_write_notin _ (fun g => (g.1 + k, g.2 + l)) (fun g => m g)
      (movingStep_write m k l d hd) gcs _ c hnt]
    rw [hfold1]
    exact foldl_write_mem _ (fun g => g) (fun g => if dup = true then m g else none)
      (stationaryStep_write dup m) (fun _ _ h => h) gcs m c hc

/-- Witness for the amended claim C8: one particle at (0,0), not
duplicating, moved one cell right; the particle occupies (1,0) after
finish. -/
theorem claim_C8_move_finish_amended_witness :
    (0 : Int) < 20
  ∧ moveFinish mExW ([mkGC 0 0].map fun g => (g, mExW g)) ([mkGC 0 0].map fun g => (g, mExW g))
      false (1 * 20, 0 * 20) 20 ((mkGC 0 0).1 + 1, (mkGC 0 0).2 + 0) = mExW (mkGC 0 0) :=
  ⟨by decide,
   (claim_C8_move_finish_amended mExW [mkGC 0 0] false 1 0 20 (by decide)).2.1
     (mkGC 0 0) (by decide)⟩

/-! ## Merge characterization (claims C3, C4) -/

/-- Pointwise effect of set_particle_at on the parent model. -/
theorem setParticleAt_model (s : ParentLayer) (gc : GC) (mp : Option Pcl) (c : GC) :
    (setParticleAt s gc mp).model c = if c = gc then mp else s.model c := by
  cases mp <;> simp [setParticleAt, setParticle, removeParticle]

/-- Pointwise effect of remove_particle_at on the parent model. -/
theorem removeParticleAt_model (s : ParentLayer) (gc : GC) (c : GC) :
    (removeParticleAt s gc).model c = if c = gc then none else s.model c := by
  simp [removeParticleAt, removeParticle]

/-- The start-coordinate removal pass of merge, pointwise. -/
theorem merge_remove_model (L : List GC) :
    ∀ (s : ParentLayer) (c : GC),
      ((L.foldl removeParticleAt s).model) c = if c ∈ L then none else s.model c := by
  induction L with
  | nil => intro s c; simp
  | cons x xs ih =>
    intro s c
    simp only [List.foldl_cons]
    rw [ih]
    by_cases hc : c ∈ xs
    · simp [hc, List.mem_cons]
    · by_cases hcx : c = x
      · simp [hc, hcx, removeParticleAt_model]
      · simp [hc, hcx, removeParticleAt_model, List.mem_cons]

/-- The finish-coordinate absorption pass of merge, pointwise: every
coordinate in the pass ends up holding the value the child model assigns
to it. -/
theorem merge_set_model (v : GC → Option Pcl) (L : List GC) :
    ∀ (s : ParentLayer) (c : GC),
      ((L.foldl (fun s2 gc => setParticleAt s2 gc (v gc)) s).model) c
        = if c ∈ L then v c else s.model c := by
  induction L with
  | nil => intro s c; simp
  | cons x xs ih =>
    intro s c
    simp only [List.foldl_cons]
    rw [ih]
    by_cases hc : c ∈ xs
    · simp [hc, List.mem_cons]
    · by_cases hcx : c = x
      · simp [hc, hcx, setParticleAt_model]
      · simp [hc, hcx, setParticleAt_model, List.mem_cons]

/-- Pointwise characterization of the merged parent model: finish
coordinates take the child model value, remaining start coordinates are
removed, everything else is untouched. -/
theorem mergeLayer_model (st : ParentLayer) (child : ChildLayer) (c : GC) :
    ((mergeLayer st child).1).model c =
      if c ∈ child.finishCoords then child.model c
      else if c ∈ child.startCoords then none
      else st.model c := by
  obtain ⟨sc, fc, cm, sel⟩ := child
  have hsel : ∀ s3 : ParentLayer,
      ((match sel with
        | none => s3
        | some l => { s3 with selected := l.toFinset }) : ParentLayer).model = s3.model := by
    intro s3
    cases sel <;> rfl
  simp only [mergeLayer, hsel]
  rw [merge_set_model]
  simp only [merge_remove_model]

/-! ## Claim C3 -/

/-- Claim C3: after parent.merge(child), every child finish coordinate
holds (by value) the particle of the child model there (occupied
coordinates upserted, blank ones removed), and every child start
coordinate not among the finish coordinates is absent from the parent.
The hypothesis that the start coordinates lie in the parent point set is
the condition under which the Python removal loop completes (the set
remove call raises KeyError otherwise). -/
theorem claim_C3_merge_conservation (st : ParentLayer) (child : ChildLayer)
    (hstart : ∀ c ∈ child.startCoords, c ∈ st.points) :
    (∀ c ∈ child.finishCoords, ((mergeLayer st child).1).model c = child.model c)
  ∧ (∀ c ∈ child.startCoords, c ∉ child.finishCoords →
       ((mergeLayer st child).1).model c = none) := by
  constructor
  · intro c hc
    rw [mergeLayer_model]
    simp [hc]
  · intro c hc hnf
    rw [mergeLayer_model]
    simp [hc, hnf]

/-- Witness for claim C3: a concrete merge of a one-cell move child into
a two-particle parent. -/
theorem claim_C3_merge_conservation_witness :
    (∀ c ∈ childExC3.startCoords, c ∈ stExC3.points)
  ∧ (mergeLayer stExC3 childExC3).1.model (mkGC 2 0) = childExC3.model (mkGC 2 0) :=
  ⟨by decide,
   (claim_C3_merge_conservation stExC3 childExC3 (by decide)).1 (mkGC 2 0) (by decide)⟩

/-! ## Claim C4 -/

/-- Claim C4: every call to parent.merge(child) emits exactly one
model-changed notification, and the dirty coordinate set it carries is
the union of the child start coordinates, the child finish coordinates
and, when the child is selection-capable, the newly selected coordinates;
the notification is the last step of the merge, after all absorption. -/
theorem claim_C4_merge_single_event (st : ParentLayer) (child : ChildLayer) :
    (mergeLayer st child).2.length = 1
  ∧ (∀ ev ∈ (mergeLayer st child).2, ∀ c : GC,
       c ∈ ev.dirtyGridcoords ↔
         c ∈ child.startCoords ∨ c ∈ child.finishCoords
           ∨ ∃ sel, child.selected = some sel ∧ c ∈ sel) := by
  obtain ⟨sc, fc, cm, sel⟩ := child
  constructor
  · rfl
  · intro ev hev c
    have hev2 : ev = ⟨sc.toFinset ∪ fc.toFinset ∪ childSelCoords ⟨sc, fc, cm, sel⟩⟩ := by
      cases sel <;> simpa [mergeLayer] using hev
    subst hev2
    cases sel <;> simp [childSelCoords, Finset.mem_union, List.mem_toFinset, or_assoc]

/-! ## Claim C1 -/

/-- No editing operation touches the underlying parent model: every
handler mutates only the layer snapshot, the selection, or the drag
bookkeeping. -/
theorem stepOp_parent (st : EditLayerState) (op : EditOp) :
    (stepOp st op).parent = st.parent := by
  cases op <;> rfl

/-- Claim C1: for every editing layer, capturing the underlying Model
state S before start, any sequence of drag/paint/selection operations
followed by cancel leaves the underlying Model exactly equal to S (same
occupied coordinates, same tag values); cancel itself only unbinds event
handlers and sets the canceled flag. -/
theorem claim_C1_cancel_restores_state (ops : List EditOp) (init : EditLayerState) :
    (cancelLayer (runOps ops init)).parent = init.parent
  ∧ (cancelLayer (runOps ops init)).canceled = true := by
  refine ⟨?_, rfl⟩
  show (runOps ops init).parent = init.parent
  induction ops generalizing init with
  | nil => rfl
  | cons op rest ih =>
    calc (runOps (op :: rest) init).parent
        = (runOps rest (stepOp init op)).parent := rfl
      _ = (stepOp init op).parent := ih (stepOp init op)
      _ = init.parent := stepOp_parent init op

/-! ## Claim C2 -/

/-- When every layer below the top is not running, at most one layer of
the whole stack is running. -/
theorem runningCount_le_one (top : LayerFlags) (rest : List LayerFlags)
    (h : ∀ l ∈ rest, runningF l = false) : runningCount (top :: rest) ≤ 1 := by
  unfold runningCount
  rw [List.countP_cons]
  have hz : rest.countP (fun l => runningF l) = 0 := by
    rw [List.countP_eq_zero]
    intro a ha
    simp [h a ha]
  rw [hz]
  split <;> omega

/-- A paused layer is not running. -/
theorem pauseFlags_not_running (l : LayerFlags) : runningF (pauseFlags l) = false := by
  simp [runningF, pauseFlags, aliveF]

/-- Claim C2: after each stack-controller operation at most one layer in
the stack is running.  start_layer pauses the current top before pushing
and starting the new layer; merge_top_layer and cancel_top_layer pop the
top, leave it finished (respectively canceled, in either case no longer
running) and only then resume the new top; each operation preserves the
invariant that all layers below the top are not running, which bounds
the running count by one. -/
theorem claim_C2_one_running :
    (∀ (t : LayerFlags) (rest : List LayerFlags) (l : LayerFlags),
       belowTopNotRunning (t :: rest) →
         startLayer (t :: rest) l = startFlags l :: pauseFlags t :: rest
       ∧ belowTopNotRunning (startLayer (t :: rest) l)
       ∧ runningCount (startLayer (t :: rest) l) ≤ 1)
  ∧ (∀ (c t : LayerFlags) (rest : List LayerFlags),
       belowTopNotRunning (c :: t :: rest) →
         (mergeTopLayer (c :: t :: rest)).1.finished = true
       ∧ runningF (mergeTopLayer (c :: t :: rest)).1 = false
       ∧ belowTopNotRunning (mergeTopLayer (c :: t :: rest)).2
       ∧ runningCount (mergeTopLayer (c :: t :: rest)).2 ≤ 1)
  ∧ (∀ (c t : LayerFlags) (rest : List LayerFlags),
       belowTopNotRunning (c :: t :: rest) →
         (cancelTopLayer (c :: t :: rest)).1.canceled = true
       ∧ runningF (cancelTopLayer (c :: t :: rest)).1 = false
       ∧ belowTopNotRunning (cancelTopLayer (c :: t :: rest)).2
       ∧ runningCount (cancelTopLayer (c :: t :: rest)).2 ≤ 1) := by
  refine ⟨?_, ?_, ?_⟩
  · intro t rest l h
    have hrest : ∀ x ∈ rest, runningF x = false := fun x hx => h x hx
    refine ⟨rfl, ?_, ?_⟩
    · intro x hx
      rcases List.mem_cons.mp hx with hx1 | hx2
      · rw [hx1]; exact pauseFlags_not_running t
      · exact hrest x hx2
    · refine runningCount_le_one _ _ ?_
      intro x hx
      rcases List.mem_cons.mp hx with hx1 | hx2
      · rw [hx1]; exact pauseFlags_not_running t
      · exact hrest x hx2
  · intro c t rest h
    have hrest : ∀ x ∈ rest, runningF x = false :=
      fun x hx => h x (List.mem_cons_of_mem t hx)
    refine ⟨rfl, ?_, ?_, ?_⟩
    · simp [runningF, aliveF, mergeTopLayer, cleanFlags, finishFlags]
    · intro x hx
      exact hrest x hx
    · exact runningCount_le_one _ _ hrest
  · intro c t rest h
    have hrest : ∀ x ∈ rest, runningF x = false :=
      fun x hx => h x (List.mem_cons_of_mem t hx)
    refine ⟨rfl, ?_, ?_, ?_⟩
    · simp [runningF, aliveF, cancelTopLayer, cleanFlags, cancelFlags]
    · intro x hx
      exact hrest x hx
    · exact runningCount_le_one _ _ hrest

/-- Witness for claim C2: a concrete stack with a running top and a
paused layer below, pushing a fresh layer. -/
theorem claim_C2_one_running_witness :
    belowTopNotRunning [runningLayerEx, pausedLayerEx]
  ∧ runningCount (startLayer [runningLayerEx, pausedLayerEx] freshLayer) ≤ 1 :=
  ⟨by decide,
   (claim_C2_one_running.1 runningLayerEx [pausedLayerEx] freshLayer (by decide)).2.2⟩

/-! ## Claim C9 -/

/-- Claim C9: body select puts in the selection exactly the coordinates
of the particles of the model whose body-type tag equals the body-type
tag of the clicked particle: a flood by attribute over the whole model,
with no contiguity restriction (membership depends only on the tag, not
on the coordinate). -/
theorem claim_C9_body_selection (particles : List PclR) (selected : List GC)
    (p : PclR) :
    (∀ q : PclR, q ∈ buddyFinder particles p ↔ q ∈ particles ∧ q.bodySpecs = p.bodySpecs)
  ∧ (∀ c : GC, c ∈ bodySelection particles selected p false ↔
       ∃ q ∈ particles, q.bodySpecs = p.bodySpecs ∧ q.gridCoord = c) := by
  constructor
  · intro q
    simp [buddyFinder, List.mem_filter]
  · intro c
    simp only [bodySelection, newSelectionCoords, calcConnectedBodyParticles,
      if_neg Bool.false_ne_true, List.mem_map, List.mem_filter, beq_iff_eq]
    constructor
    · rintro ⟨q, ⟨hq, hb⟩, hc⟩
      exact ⟨q, hq, hb, hc⟩
    · rintro ⟨q, hq, hb, hc⟩
      exact ⟨q, ⟨hq, hb⟩, hc⟩

end RBD
